import Mathlib

/-!
# Verification of the pi-eink-dashboard core against its specification

Shallow embedding of the repository's core components:

* `EPD` — the Waveshare 2.7" (B) V1 panel driver
  (`src/pi_eink_dashboard/driver/epd2in7b.py`): busy-wait polling,
  logical-to-physical buffer packing (`getbuffer`), and the `display`
  wire-protocol sequence, modelled as an emitted event trace.
* the dithering engine (`src/pi_eink_dashboard/dither.py`): serpentine
  Floyd-Steinberg error diffusion over a CIELAB pixel field, modelled with
  exact rationals; the floating-point preprocessing pipeline
  (PIL resize / enhance / sRGB→Lab) is abstracted as a parameter since the
  claims under verification are independent of its numeric output.
* the composer's `progress_bar` (`src/pi_eink_dashboard/composer.py`).
* the `Display` wrapper's teardown (`src/pi_eink_dashboard/display.py`).

Machine bytes are `Nat` with explicit masking; Python's `~m` on a byte held
under `& 0xFF`-sized values is modelled as `255 ^^^ m`, valid because every
buffer byte stays below 256.
-/

/-- One observable action of the driver on the wire / GPIO.
`cmd b` models `send_command(b)` (DC pin low, one SPI byte);
`data b` models `send_data(b)` (DC pin high, one SPI byte);
`delayMs n` models `epdconfig.delay_ms(n)`;
`readBusy v` models one `epdconfig.digital_read(busy_pin)` returning `v`. -/
inductive Ev where
  | cmd (b : Nat)
  | data (b : Nat)
  | delayMs (ms : Nat)
  | readBusy (v : Nat)
  deriving DecidableEq, Repr

/-- `EPD_WIDTH` from the driver: physical panel width (portrait). -/
def EPD_WIDTH : Nat := 176

/-- `EPD_HEIGHT` from the driver: physical panel height (portrait). -/
def EPD_HEIGHT : Nat := 264

namespace EPD

/-- The busy-wait loop body of `EPD.wait_until_idle`.  `busyRead k` is the
value returned by the `k`-th `digital_read(self.busy_pin)` (V1 polarity:
`0` = busy, `1` = idle).  Faithful to the source:

```
elapsed = 0
while epdconfig.digital_read(self.busy_pin) == 0:
    epdconfig.delay_ms(100)
    elapsed += 100
    if elapsed >= timeout_ms:
        break
```

The trace records each poll and each 100 ms delay. -/
def waitGo (busyRead : Nat → Nat) (timeoutMs : Nat) (elapsed k : Nat) : List Ev :=
  if busyRead k = 0 then
    if timeoutMs ≤ elapsed + 100 then
      [Ev.readBusy (busyRead k), Ev.delayMs 100]
    else
      Ev.readBusy (busyRead k) :: Ev.delayMs 100 ::
        waitGo busyRead timeoutMs (elapsed + 100) (k + 1)
  else
    [Ev.readBusy (busyRead k)]
termination_by timeoutMs - elapsed
decreasing_by omega

/-- `EPD.wait_until_idle(timeout_ms=30000)`: poll the busy line until idle or
until the accumulated 100 ms delays reach the timeout; on timeout the loop
breaks (logged as a warning in the source, not an error) and the method
returns normally. -/
def wait_until_idle (busyRead : Nat → Nat) (timeoutMs : Nat := 30000) : List Ev :=
  waitGo busyRead timeoutMs 0 0

/-- Number of `delay_ms` events in a trace (each is one fixed poll interval). -/
def countDelays (tr : List Ev) : Nat :=
  tr.countP fun e => match e with
    | Ev.delayMs _ => true
    | _ => false

/-- Every delay event in the trace waits exactly `ms` milliseconds. -/
def allDelays (tr : List Ev) (ms : Nat) : Bool :=
  tr.all fun e => match e with
    | Ev.delayMs d => d == ms
    | _ => true

/-- A physical frame buffer, modelled as a map from byte index to byte value.
The source allocates `[0xFF] * (self.width * self.height // 8)`; only indices
below `176 * 264 / 8 = 5808` are ever written or transmitted. -/
def Buf : Type := Nat → Nat

/-- `buf[k] &= ~(0x80 >> b)` from `EPD.getbuffer`: clear (to 0) the bit at
MSB-first position `b` of byte `k`.  Since every byte stays below 256,
Python's `& ~(0x80 >> b)` equals masking with `0xFF ^ (0x80 >> b)`. -/
def clearBit (buf : Buf) (k b : Nat) : Buf :=
  fun i => if i = k then buf k &&& (255 ^^^ (128 >>> b)) else buf i

/-- The pixel visit order of the two nested loops
`for y in range(imheight): for x in range(imwidth)`, as `(x, y)` pairs. -/
def coords (imheight imwidth : Nat) : List (Nat × Nat) :=
  (List.range imheight).flatMap fun y => (List.range imwidth).map fun x => (x, y)

/-- One packing pass of `EPD.getbuffer`: for each visited pixel satisfying
`cond` (source: `pixels[x, y] != 0`), clear the buffer bit at byte
`addr p` and MSB-first bit position `bitp p`. -/
def packPass (cond : Nat × Nat → Bool) (addr bitp : Nat × Nat → Nat)
    (cs : List (Nat × Nat)) (buf : Buf) : Buf :=
  cs.foldl (fun b p => if cond p then clearBit b (addr p) (bitp p) else b) buf

/-- `EPD.getbuffer(image)`: convert a 1-bit image (pixel value `0` = ink,
`255` = no ink, given here as its `load()` accessor `pix x y`) into the
packed buffer.  Primary branch: image already in physical orientation
(`imwidth == self.width and imheight == self.height`), packing pixel
`(x, y)` at byte `(x + y * self.width) // 8`, bit `0x80 >> (x % 8)`.
Secondary branch: image in logical/landscape orientation
(`imwidth == self.height and imheight == self.width`), with
`newx = y`, `newy = self.height - x - 1`, packing at byte
`(newx + newy * self.width) // 8`, bit `0x80 >> (y % 8)`.
If neither dimension test matches, the freshly allocated all-ones buffer is
returned unchanged (the source has no `else` clause and raises nothing). -/
def getbuffer (imwidth imheight : Nat) (pix : Nat → Nat → Nat) : Buf :=
  let buf : Buf := fun _ => 0xFF
  if imwidth = EPD_WIDTH ∧ imheight = EPD_HEIGHT then
    packPass (fun p => pix p.1 p.2 != 0)
      (fun p => (p.1 + p.2 * EPD_WIDTH) / 8)
      (fun p => p.1 % 8)
      (coords imheight imwidth) buf
  else if imwidth = EPD_HEIGHT ∧ imheight = EPD_WIDTH then
    packPass (fun p => pix p.1 p.2 != 0)
      (fun p => (p.2 + (EPD_HEIGHT - p.1 - 1) * EPD_WIDTH) / 8)
      (fun p => p.2 % 8)
      (coords imheight imwidth) buf
  else buf

/-- `EPD.display(imageblack, imagered)`: the emitted wire-protocol trace.
Faithful to the source: resolution registers (`0x61`, two-byte big-endian
width then height), then for each non-`None` plane its data-start command
(`0x10` black / `0x13` red), a 2 ms settle delay, `self.width * self.height
// 8` data bytes, and a `0x11` stop; then `0x12` refresh and
`wait_until_idle()`. -/
def display (imageblack imagered : Option (Nat → Nat)) (busyRead : Nat → Nat) :
    List Ev :=
  [Ev.cmd 0x61,
   Ev.data (EPD_WIDTH >>> 8), Ev.data (EPD_WIDTH &&& 0xFF),
   Ev.data (EPD_HEIGHT >>> 8), Ev.data (EPD_HEIGHT &&& 0xFF)]
  ++ (match imageblack with
      | some img =>
          [Ev.cmd 0x10, Ev.delayMs 2]
          ++ (List.range (EPD_WIDTH * EPD_HEIGHT / 8)).map (fun i => Ev.data (img i))
          ++ [Ev.cmd 0x11]
      | none => [])
  ++ (match imagered with
      | some img =>
          [Ev.cmd 0x13, Ev.delayMs 2]
          ++ (List.range (EPD_WIDTH * EPD_HEIGHT / 8)).map (fun i => Ev.data (img i))
          ++ [Ev.cmd 0x11]
      | none => [])
  ++ [Ev.cmd 0x12]
  ++ wait_until_idle busyRead

end EPD

/-- MSB-first bit extraction from a packed buffer: the bit for physical pixel
`(x, y)` sits in byte `(x + y * EPD_WIDTH) / 8` at position `0x80 >> (x % 8)`,
i.e. `testBit (7 - x % 8)`.  `true` = bit 1 = ink present on this plane. -/
def extractBit (buf : EPD.Buf) (x y : Nat) : Bool :=
  (buf ((x + y * EPD_WIDTH) / 8)).testBit (7 - x % 8)

/-- Unpack a whole packed buffer back into a physical-orientation
(176 wide × 264 tall) boolean ink mask. -/
def unpackMask (buf : EPD.Buf) : Fin EPD_HEIGHT → Fin EPD_WIDTH → Bool :=
  fun y x => extractBit buf x.val y.val

/-- Present a physical-orientation boolean ink mask as the pixel accessor of a
PIL mode "1" image: ink = pixel value 0, no ink = 255 (out-of-range
coordinates are never accessed by `getbuffer`'s loops). -/
def maskToPix (m : Fin EPD_HEIGHT → Fin EPD_WIDTH → Bool) : Nat → Nat → Nat :=
  fun x y =>
    if h : x < EPD_WIDTH ∧ y < EPD_HEIGHT then
      (if m ⟨y, h.2⟩ ⟨x, h.1⟩ then 0 else 255)
    else 255

/-- A logical (landscape, 264 wide × 176 tall) boolean ink mask as a mode "1"
pixel accessor: ink = 0, no ink = 255. -/
def boolPix (m : Nat → Nat → Bool) : Nat → Nat → Nat :=
  fun x y => if m x y then 0 else 255

/-- `Image.transpose(Image.ROTATE_90)` (90° counterclockwise) applied to a
264×176 image, as used by `Display.show`: rotated pixel `(x, y)` equals
original pixel `(264 - 1 - y, x)`. -/
def rot90ccw (m : Nat → Nat → Bool) : Nat → Nat → Bool :=
  fun x y => m (263 - y) x

/-! ## Dithering engine (`dither.py`)

Pixel values live in CIELAB; the claims verified here hold for every palette
and every pixel field, so the Lab coordinates are exact rationals and the
palette (computed once from floating-point sRGB→Lab conversion in the source)
is a parameter. -/

/-- A CIELAB color: (L, a, b) components. -/
abbrev Lab : Type := ℚ × ℚ × ℚ

/-- `WIDTH` from `dither.py`: canvas width (landscape). -/
def canvasW : Nat := 264

/-- `HEIGHT` from `dither.py`: canvas height (landscape). -/
def canvasH : Nat := 176

/-- Squared Euclidean distance in CIELAB, as in
`np.sum(diff * diff, axis=1)`. -/
def distSq (u v : Lab) : ℚ :=
  (u.1 - v.1) ^ 2 + (u.2.1 - v.2.1) ^ 2 + (u.2.2 - v.2.2) ^ 2

/-- `int(np.argmin(...))` over the three palette distances: the first index
attaining the minimum (ties resolve to the lowest index). -/
def argminPalette (pal : Nat → Lab) (v : Lab) : Nat :=
  let d0 := distSq (pal 0) v
  let d1 := distSq (pal 1) v
  let d2 := distSq (pal 2) v
  if d0 ≤ d1 then (if d0 ≤ d2 then 0 else 2) else (if d1 ≤ d2 then 1 else 2)

/-- Point update of a two-index field. -/
def upd2 {α : Type} (f : Nat → Nat → α) (y x : Nat) (v : α) : Nat → Nat → α :=
  fun y' x' => if y' = y ∧ x' = x then v else f y' x'

/-- `_FS_KERNEL = [(1, 0, 7/16), (-1, 1, 3/16), (0, 1, 5/16), (1, 1, 1/16)]`:
(dx, dy, weight) taps, with `dx` mirrored by the scan direction at use. -/
def FS_KERNEL : List (Int × Nat × ℚ) :=
  [(1, 0, 7/16), (-1, 1, 3/16), (0, 1, 5/16), (1, 1, 1/16)]

/-- The inner error-diffusion loop of `dither_image`: for each kernel tap,
`nx = x + dx * direction`, `ny = y + dy`; if `0 <= nx < WIDTH` and
`0 <= ny < HEIGHT` then `pixels[ny, nx] += error * weight` (out-of-bounds
taps are skipped — the error is discarded). -/
def diffuse (pix : Nat → Nat → Lab) (x y : Nat) (d : Int) (err : Lab) :
    Nat → Nat → Lab :=
  FS_KERNEL.foldl
    (fun p tap =>
      let nx : Int := (x : Int) + tap.1 * d
      let ny : Nat := y + tap.2.1
      if 0 ≤ nx ∧ nx < (canvasW : Int) ∧ ny < canvasH then
        upd2 p ny nx.toNat (p ny nx.toNat + tap.2.2 • err)
      else p)
    pix

/-- Mutable state of one dithering pass: the accumulated-error pixel field and
the per-pixel chosen palette index (`result`, initialised by `np.zeros`). -/
structure DitherState where
  pixels : Nat → Nat → Lab
  result : Nat → Nat → Nat

/-- One iteration of the pixel loop of `dither_image`: quantize pixel
`(x, y)` to the nearest palette entry, record the index, and diffuse the
residual error with scan direction `d`. -/
def ditherStep (pal : Nat → Lab) (st : DitherState) (x y : Nat) (d : Int) :
    DitherState :=
  let old := st.pixels y x
  let nearest := argminPalette pal old
  let err := old - pal nearest
  { pixels := diffuse st.pixels x y d err
    result := upd2 st.result y x nearest }

/-- One row of the serpentine scan: even rows run `range(WIDTH)` with
`direction = 1`, odd rows run `range(WIDTH - 1, -1, -1)` with
`direction = -1`. -/
def rowPass (pal : Nat → Lab) (st : DitherState) (y : Nat) : DitherState :=
  if y % 2 = 0 then
    (List.range canvasW).foldl (fun s x => ditherStep pal s x y 1) st
  else
    ((List.range canvasW).reverse).foldl (fun s x => ditherStep pal s x y (-1)) st

/-- The full serpentine Floyd-Steinberg pass of `dither_image` over a
`HEIGHT × WIDTH` CIELAB pixel field. -/
def ditherCore (pal : Nat → Lab) (pix0 : Nat → Nat → Lab) : DitherState :=
  (List.range canvasH).foldl (rowPass pal) { pixels := pix0, result := fun _ _ => 0 }

/-- Mask extraction of `dither_image`: `black_data = np.where(result == 0, 0,
255)` and `red_data = np.where(result == 1, 0, 255)`, then lossless conversion
to mode "1" — here directly the boolean ink masks (`true` = ink), row-major
`HEIGHT` rows of `WIDTH` entries each. -/
def ditherMasks (pal : Nat → Lab) (pix0 : Nat → Nat → Lab) :
    List (List Bool) × List (List Bool) :=
  let res := (ditherCore pal pix0).result
  ((List.range canvasH).map fun y => (List.range canvasW).map fun x => res y x == 0,
   (List.range canvasH).map fun y => (List.range canvasW).map fun x => res y x == 1)

/-- Bounded lookup in a row-major boolean mask (`false` outside the grid). -/
def maskGet (m : List (List Bool)) (y x : Nat) : Bool :=
  (m.getD y []).getD x false

/-- An in-memory source image (`PIL.Image.Image` after `.convert("RGB")`):
its size and its sRGB pixel accessor. -/
structure SrcImage where
  width : Nat
  height : Nat
  pix : Nat → Nat → ℚ × ℚ × ℚ

/-- The only error kind of the dither pipeline: the source could not be
opened / interpreted (`Image.open` raising). -/
inductive DitherError where
  | invalidInput (msg : String)
  deriving DecidableEq

/-- `dither_image(source, saturation_boost=2.5, contrast_boost=1.3)`.

`source` models the outcome of obtaining an RGB image (`Image.open(...)
.convert("RGB")` may fail for a path; an in-memory image cannot).
`preprocess` models the floating-point library pipeline applied next —
`img.resize((WIDTH, HEIGHT), Image.LANCZOS)`, `ImageEnhance.Color(...)
.enhance(saturation_boost)`, `ImageEnhance.Contrast(...).enhance(
contrast_boost)` and `_srgb_to_lab` — which is total for an opened image and
always yields a `HEIGHT × WIDTH` CIELAB field, the source image having been
resized (stretched) to the fixed canvas regardless of its own dimensions.
The source performs no dimension check of its own: every opened image flows
straight through `resize` into the serpentine dither pass. -/
def dither_image (pal : Nat → Lab)
    (preprocess : SrcImage → ℚ → ℚ → (Nat → Nat → Lab))
    (source : Except DitherError SrcImage)
    (saturation_boost : ℚ := 5/2) (contrast_boost : ℚ := 13/10) :
    Except DitherError (List (List Bool) × List (List Bool)) :=
  match source with
  | Except.error e => Except.error e
  | Except.ok img =>
      Except.ok (ditherMasks pal (preprocess img saturation_boost contrast_boost))

/-! ### Specification-side model of the dithering scan (for the refinement
claim): written from the spec's words — serpentine traversal with an explicit
per-row direction, and a 4-tap kernel expressed as absolute offsets
7/16 to the next pixel *in* scan direction, 3/16 to the next-row diagonal
*against* scan direction, 5/16 directly below, 1/16 to the next-row diagonal
*with* scan direction; error falling outside the bounds is discarded. -/

/-- Scan direction by row parity: even rows left→right, odd rows right→left. -/
def specDirection (y : Nat) : Int := if y % 2 = 0 then 1 else -1

/-- Serpentine pixel order as one flat list of `(x, y)` coordinates. -/
def specScanOrder : List (Nat × Nat) :=
  (List.range canvasH).flatMap fun y =>
    (if y % 2 = 0 then List.range canvasW else (List.range canvasW).reverse).map
      fun x => (x, y)

/-- The spec's four taps for scan direction `d`, as absolute x-offsets:
next pixel in scan direction, next-row against, directly below, next-row
with; the horizontal taps mirror with `d`. -/
def specTaps (d : Int) : List (Int × Nat × ℚ) :=
  [(d, 0, 7/16), (-d, 1, 3/16), (0, 1, 5/16), (d, 1, 1/16)]

/-- Spec-side error diffusion: add `weight • err` at each in-bounds tap
target, skipping (discarding) out-of-bounds targets. -/
def specDiffuse (pix : Nat → Nat → Lab) (x y : Nat) (d : Int) (err : Lab) :
    Nat → Nat → Lab :=
  (specTaps d).foldl
    (fun p tap =>
      let nx : Int := (x : Int) + tap.1
      let ny : Nat := y + tap.2.1
      if 0 ≤ nx ∧ nx < (canvasW : Int) ∧ ny < canvasH then
        upd2 p ny nx.toNat (p ny nx.toNat + tap.2.2 • err)
      else p)
    pix

/-- Spec-side treatment of one pixel, direction taken from its row parity. -/
def specStep (pal : Nat → Lab) (st : DitherState) (p : Nat × Nat) : DitherState :=
  let d := specDirection p.2
  let old := st.pixels p.2 p.1
  let nearest := argminPalette pal old
  let err := old - pal nearest
  { pixels := specDiffuse st.pixels p.1 p.2 d err
    result := upd2 st.result p.2 p.1 nearest }

/-- Spec-side dithering pass: fold the per-pixel step over the serpentine
order. -/
def specDither (pal : Nat → Lab) (pix0 : Nat → Nat → Lab) : DitherState :=
  specScanOrder.foldl (specStep pal) { pixels := pix0, result := fun _ _ => 0 }

/-! ## Composer (`composer.py`) -/

/-- The two independent 1-bit canvases of `Composer` (`true` = ink); drawing
coordinates are integers as in PIL (the device consumes only the
`[0, 264) × [0, 176)` restriction). -/
structure Composer where
  black : ℤ → ℤ → Bool
  red : ℤ → ℤ → Bool

/-- `ImageDraw.rectangle([(x0, y0), (x1, y1)], fill=INK)`: set ink on every
pixel of the inclusive box; an inverted box (`x1 < x0` or `y1 < y0`) draws
nothing. -/
def rectFill (m : ℤ → ℤ → Bool) (x0 y0 x1 y1 : ℤ) : ℤ → ℤ → Bool :=
  fun px py =>
    if x0 ≤ px ∧ px ≤ x1 ∧ y0 ≤ py ∧ py ≤ y1 then true else m px py

/-- `ImageDraw.rectangle([(x0, y0), (x1, y1)], outline=INK)`: set ink on the
one-pixel border of the inclusive box. -/
def rectOutline (m : ℤ → ℤ → Bool) (x0 y0 x1 y1 : ℤ) : ℤ → ℤ → Bool :=
  fun px py =>
    if (x0 ≤ px ∧ px ≤ x1 ∧ y0 ≤ py ∧ py ≤ y1) ∧
        (px = x0 ∨ px = x1 ∨ py = y0 ∨ py = y1) then true
    else m px py

/-- `Composer._draw(color)` routing: `"red"` selects the red layer, anything
else the black layer; the modification `f` is applied to that layer only. -/
def drawPlane (c : Composer) (color : String) (f : (ℤ → ℤ → Bool) → (ℤ → ℤ → Bool)) :
    Composer :=
  if color = "red" then { c with red := f c.red } else { c with black := f c.black }

/-- Python `int(...)` on a rational: truncation toward zero. -/
def pyInt (q : ℚ) : ℤ := if 0 ≤ q then ⌊q⌋ else ⌈q⌉

/-- `Composer.progress_bar(x, y, width, height, percent, color="black",
critical_threshold=85.0)`:

```
bar_color = "red" if percent >= critical_threshold else color
self._draw_black.rectangle([(x, y), (x + width, y + height)], outline=INK)
fill_w = max(0, int((width - 2) * min(percent, 100) / 100))
if fill_w > 0:
    self._draw(bar_color).rectangle(
        [(x + 1, y + 1), (x + 1 + fill_w, y + height - 1)], fill=INK)
``` -/
def progress_bar (c : Composer) (x y width height : ℤ) (percent : ℚ)
    (color : String := "black") (critical_threshold : ℚ := 85) : Composer :=
  let bar_color := if critical_threshold ≤ percent then "red" else color
  let c1 : Composer := { c with black := rectOutline c.black x y (x + width) (y + height) }
  let fill_w : ℤ := max 0 (pyInt (((width : ℚ) - 2) * min percent 100 / 100))
  if 0 < fill_w then
    drawPlane c1 bar_color
      (fun m => rectFill m (x + 1) (y + 1) (x + 1 + fill_w) (y + height - 1))
  else c1

/-! ## Display wrapper teardown (`display.py`) -/

/-- A raised Python exception (any `Exception` escaping a driver call). -/
inductive PyExc where
  | raised (msg : String)
  deriving DecidableEq

/-- The outcomes of the two driver calls made inside `Display.close`'s `try`
block: `self._epd.Clear()` and `self._epd.sleep()`. -/
structure TeardownOps where
  clearResult : Except PyExc Unit
  sleepResult : Except PyExc Unit

/-- `Display.close()`:

```
try:
    self._epd.Clear()
    self._epd.sleep()
except Exception:
    log.exception("Error during display close")
```

The `try` body runs `Clear` then (only if it returned) `sleep`; any exception
from either is caught and logged, never re-raised. -/
def Display.close (ops : TeardownOps) : Except PyExc Unit :=
  match (ops.clearResult.bind fun _ => ops.sleepResult) with
  | Except.ok _ => Except.ok ()
  | Except.error _ => Except.ok ()

/-! # Theorems -/

/-! ## Busy-wait (claim C7) -/

theorem countDelays_cons_read (v : Nat) (tr : List Ev) :
    EPD.countDelays (Ev.readBusy v :: tr) = EPD.countDelays tr := by
  simp [EPD.countDelays, List.countP_cons]

theorem countDelays_cons_delay (d : Nat) (tr : List Ev) :
    EPD.countDelays (Ev.delayMs d :: tr) = EPD.countDelays tr + 1 := by
  simp [EPD.countDelays, List.countP_cons]

theorem waitGo_spec (busyRead : Nat → Nat) (timeoutMs : Nat) :
    ∀ n elapsed k, timeoutMs - elapsed ≤ n →
      EPD.allDelays (EPD.waitGo busyRead timeoutMs elapsed k) 100 = true ∧
      EPD.countDelays (EPD.waitGo busyRead timeoutMs elapsed k) ≤
        (timeoutMs - elapsed) / 100 + 1 := by
  intro n
  induction n with
  | zero =>
    intro elapsed k h
    rw [EPD.waitGo]
    have hto : timeoutMs ≤ elapsed + 100 := by omega
    by_cases hb : busyRead k = 0
    · simp [hb, hto, EPD.allDelays, EPD.countDelays]
    · simp [hb, EPD.allDelays, EPD.countDelays]
  | succ n ih =>
    intro elapsed k h
    rw [EPD.waitGo]
    by_cases hb : busyRead k = 0
    · by_cases hto : timeoutMs ≤ elapsed + 100
      · simp [hb, hto, EPD.allDelays, EPD.countDelays]
      · have hrec := ih (elapsed + 100) (k + 1) (by omega)
        simp only [hb, hto, if_true, if_false, if_pos rfl, if_neg hto]
        constructor
        · simp [EPD.allDelays] at hrec ⊢
          exact hrec.1
        · have h2 := hrec.2
          rw [countDelays_cons_read, countDelays_cons_delay]
          omega
    · simp [hb, EPD.allDelays, EPD.countDelays]

/-- C7: the busy-wait always returns — it polls in fixed 100 ms delay steps
and the number of delay steps is bounded by `timeoutMs / 100 + 1` for every
busy-line behaviour, including a line that never reports idle; reaching the
bound is a logged warning in the source, not an error. -/
theorem wait_until_idle_bounded_polling (busyRead : Nat → Nat) (timeoutMs : Nat) :
    EPD.allDelays (EPD.wait_until_idle busyRead timeoutMs) 100 = true ∧
    EPD.countDelays (EPD.wait_until_idle busyRead timeoutMs) ≤ timeoutMs / 100 + 1 := by
  have h := waitGo_spec busyRead timeoutMs timeoutMs 0 0 (by omega)
  simpa [EPD.wait_until_idle] using h

/-! ## Teardown (claim C9) -/

/-- C9: `Display.close` never raises — whatever the outcomes of the `Clear`
and `sleep` calls inside its `try` block, every exception is caught (and
logged), and the method returns normally. -/
theorem display_close_never_raises (ops : TeardownOps) :
    Display.close ops = Except.ok () := by
  rcases ops with ⟨⟨e⟩ | ⟨⟩, ⟨e'⟩ | ⟨⟩⟩ <;> rfl

/-! ## Display protocol sequence (claim C6) -/

/-- C6: a `display` call with both plane buffers emits, in order: the
resolution command `0x61` with the two-byte big-endian width (`0x00 0xB0` =
176) then height (`0x01 0x08` = 264); the black data-start `0x10`, its settle
delay, exactly 5808 data bytes and a stop `0x11`; the distinct red data-start
`0x13`, its settle delay, exactly 5808 data bytes and a stop `0x11`; the
refresh trigger `0x12`; and finally the busy-wait. -/
theorem display_emits_protocol_sequence (bB bR : Nat → Nat) (busyRead : Nat → Nat) :
    EPD.display (some bB) (some bR) busyRead =
      [Ev.cmd 0x61, Ev.data 0x00, Ev.data 0xB0, Ev.data 0x01, Ev.data 0x08]
      ++ ([Ev.cmd 0x10, Ev.delayMs 2]
          ++ (List.range 5808).map (fun i => Ev.data (bB i)) ++ [Ev.cmd 0x11])
      ++ ([Ev.cmd 0x13, Ev.delayMs 2]
          ++ (List.range 5808).map (fun i => Ev.data (bR i)) ++ [Ev.cmd 0x11])
      ++ [Ev.cmd 0x12]
      ++ EPD.wait_until_idle busyRead ∧
    ((List.range 5808).map (fun i => Ev.data (bB i))).length = 5808 ∧
    ((List.range 5808).map (fun i => Ev.data (bR i))).length = 5808 := by
  refine ⟨rfl, ?_, ?_⟩ <;> simp

/-! ## `getbuffer` on unexpected dimensions (claim C10) -/

/-- C10: when the image dimensions match neither the physical orientation
(176×264) nor the swapped orientation (264×176), `getbuffer` raises nothing
and returns the freshly allocated buffer with every byte still `0xFF`
(every bit 1 = all ink) — the pixel content is never consulted. -/
theorem getbuffer_mismatched_dims_all_ink (imwidth imheight : Nat)
    (pix : Nat → Nat → Nat)
    (h1 : ¬(imwidth = 176 ∧ imheight = 264))
    (h2 : ¬(imwidth = 264 ∧ imheight = 176)) :
    EPD.getbuffer imwidth imheight pix = fun _ => 0xFF := by
  unfold EPD.getbuffer
  simp only [EPD_WIDTH, EPD_HEIGHT]
  rw [if_neg h1, if_neg h2]

theorem getbuffer_mismatched_dims_all_ink_witness :
    ¬((100 : Nat) = 176 ∧ (100 : Nat) = 264) ∧
    ¬((100 : Nat) = 264 ∧ (100 : Nat) = 176) ∧
    EPD.getbuffer 100 100 (fun _ _ => 0) = fun _ => 0xFF :=
  ⟨by decide, by decide,
    getbuffer_mismatched_dims_all_ink 100 100 (fun _ _ => 0) (by decide) (by decide)⟩

/-! ## Bit-level characterisation of `getbuffer` (claims C2, C3) -/

theorem testBit_255 (t : Nat) (ht : t < 8) : Nat.testBit 255 t = true := by
  have h := Nat.testBit_two_pow_sub_one 8 t
  simpa [ht] using h

theorem testBit_128 (m : Nat) : Nat.testBit 128 m = decide (m = 7) := by
  have h : (128 : Nat) = 2 ^ 7 := by norm_num
  rw [h, Nat.testBit_two_pow]
  exact decide_eq_decide.mpr ⟨fun h' => h'.symm, fun h' => h'.symm⟩

theorem testBit_clearBit (buf : EPD.Buf) (k b i t : Nat) (ht : t < 8) :
    ((EPD.clearBit buf k b) i).testBit t =
      ((buf i).testBit t && !(decide (i = k) && decide (b + t = 7))) := by
  unfold EPD.clearBit
  by_cases hik : i = k
  · subst hik
    simp [Nat.testBit_and, Nat.testBit_xor, testBit_255 t ht, testBit_128]
  · simp [hik]

theorem testBit_packPass (cond : Nat × Nat → Bool) (addr bitp : Nat × Nat → Nat)
    (cs : List (Nat × Nat)) (buf : EPD.Buf) (k t : Nat) (ht : t < 8) :
    ((EPD.packPass cond addr bitp cs buf) k).testBit t =
      ((buf k).testBit t &&
        !(cs.any fun p => cond p && decide (addr p = k) && decide (bitp p + t = 7))) := by
  induction cs generalizing buf with
  | nil => simp [EPD.packPass]
  | cons p rest ih =>
    have hstep : EPD.packPass cond addr bitp (p :: rest) buf =
        EPD.packPass cond addr bitp rest
          (if cond p then EPD.clearBit buf (addr p) (bitp p) else buf) := by
      simp [EPD.packPass]
    rw [hstep, ih]
    by_cases hc : cond p
    · rw [if_pos hc, testBit_clearBit _ _ _ _ _ ht]
      simp only [List.any_cons, hc, Bool.true_and]
      by_cases h1 : k = addr p
      · subst h1
        simp [Bool.and_assoc, Bool.and_left_comm, Bool.not_or]
      · have h1' : ¬ addr p = k := fun h => h1 h.symm
        simp [h1, h1']
    · rw [if_neg hc]
      simp [List.any_cons, hc]

theorem packPass_le_255 (cond : Nat × Nat → Bool) (addr bitp : Nat × Nat → Nat)
    (cs : List (Nat × Nat)) (buf : EPD.Buf) (hbuf : ∀ i, buf i ≤ 255) :
    ∀ i, EPD.packPass cond addr bitp cs buf i ≤ 255 := by
  induction cs generalizing buf with
  | nil => exact hbuf
  | cons p rest ih =>
    intro i
    have hstep : EPD.packPass cond addr bitp (p :: rest) buf =
        EPD.packPass cond addr bitp rest
          (if cond p then EPD.clearBit buf (addr p) (bitp p) else buf) := by
      simp [EPD.packPass]
    rw [hstep]
    refine ih _ (fun j => ?_) i
    by_cases hc : cond p
    · rw [if_pos hc]
      unfold EPD.clearBit
      by_cases hj : j = addr p
      · rw [if_pos hj]
        exact le_trans Nat.and_le_left (hbuf (addr p))
      · rw [if_neg hj]
        exact hbuf j
    · rw [if_neg hc]
      exact hbuf j

theorem getbuffer_le_255 (imwidth imheight : Nat) (pix : Nat → Nat → Nat) (i : Nat) :
    EPD.getbuffer imwidth imheight pix i ≤ 255 := by
  unfold EPD.getbuffer
  split
  · exact packPass_le_255 _ _ _ _ _ (fun _ => le_refl 255) i
  · split
    · exact packPass_le_255 _ _ _ _ _ (fun _ => le_refl 255) i
    · exact le_refl 255

theorem mem_coords {h w : Nat} {p : Nat × Nat} :
    p ∈ EPD.coords h w ↔ p.1 < w ∧ p.2 < h := by
  rcases p with ⟨x, y⟩
  simp only [EPD.coords, List.mem_flatMap, List.mem_map, List.mem_range]
  constructor
  · rintro ⟨y', hy', x', hx', hxy⟩
    obtain ⟨rfl, rfl⟩ : x' = x ∧ y' = y := by
      constructor <;> [exact congrArg Prod.fst hxy; exact congrArg Prod.snd hxy]
    exact ⟨hx', hy'⟩
  · rintro ⟨hx, hy⟩
    exact ⟨y, hy, x, hx, rfl⟩

/-- For a byte/bit target `(k, t)` the primary packing pass clears the bit iff
the unique physical pixel wired to flat bit address `a = 8k + 7 - t` — namely
`(a % 176, a / 176)` — carries a non-zero (no-ink) pixel value. -/
theorem any_coords_primary (pix : Nat → Nat → Nat) (k t : Nat) (ht : t < 8) :
    ((EPD.coords 264 176).any fun p =>
        (pix p.1 p.2 != 0) && decide ((p.1 + p.2 * 176) / 8 = k) &&
          decide (p.1 % 8 + t = 7))
      = (decide (8 * k + 7 - t < 46464) &&
          (pix ((8 * k + 7 - t) % 176) ((8 * k + 7 - t) / 176) != 0)) := by
  rw [Bool.eq_iff_iff]
  simp only [List.any_eq_true, Bool.and_eq_true, bne_iff_ne, decide_eq_true_eq]
  constructor
  · rintro ⟨⟨x, y⟩, hmem, ⟨hpix, haddr⟩, hbit⟩
    obtain ⟨hx, hy⟩ := mem_coords.mp hmem
    simp only at hpix haddr hbit hx hy
    have ha : 8 * k + 7 - t = x + y * 176 := by omega
    refine ⟨by omega, ?_⟩
    have h1 : (8 * k + 7 - t) % 176 = x := by omega
    have h2 : (8 * k + 7 - t) / 176 = y := by omega
    rw [h1, h2]
    exact hpix
  · rintro ⟨hlt, hpix⟩
    refine ⟨((8 * k + 7 - t) % 176, (8 * k + 7 - t) / 176),
      mem_coords.mpr ⟨by omega, by omega⟩, ⟨hpix, by omega⟩, by omega⟩

/-- Same for the secondary (logical-orientation) pass: byte/bit target
`(k, t)` with `a = 8k + 7 - t` is cleared iff logical pixel
`(263 - a / 176, a % 176)` carries a non-zero (no-ink) value. -/
theorem any_coords_secondary (pix : Nat → Nat → Nat) (k t : Nat) (ht : t < 8) :
    ((EPD.coords 176 264).any fun p =>
        (pix p.1 p.2 != 0) && decide ((p.2 + (264 - p.1 - 1) * 176) / 8 = k) &&
          decide (p.2 % 8 + t = 7))
      = (decide (8 * k + 7 - t < 46464) &&
          (pix (263 - (8 * k + 7 - t) / 176) ((8 * k + 7 - t) % 176) != 0)) := by
  rw [Bool.eq_iff_iff]
  simp only [List.any_eq_true, Bool.and_eq_true, bne_iff_ne, decide_eq_true_eq]
  constructor
  · rintro ⟨⟨x, y⟩, hmem, ⟨hpix, haddr⟩, hbit⟩
    obtain ⟨hx, hy⟩ := mem_coords.mp hmem
    simp only at hpix haddr hbit hx hy
    have ha : 8 * k + 7 - t = y + (264 - x - 1) * 176 := by omega
    refine ⟨by omega, ?_⟩
    have h1 : 263 - (8 * k + 7 - t) / 176 = x := by omega
    have h2 : (8 * k + 7 - t) % 176 = y := by omega
    rw [h1, h2]
    exact hpix
  · rintro ⟨hlt, hpix⟩
    refine ⟨(263 - (8 * k + 7 - t) / 176, (8 * k + 7 - t) % 176),
      mem_coords.mpr ⟨by omega, by omega⟩, ⟨hpix, by omega⟩, by omega⟩

/-- Bit-level description of the primary `getbuffer` branch (image already in
physical 176×264 orientation). -/
theorem getbuffer_primary_testBit (pix : Nat → Nat → Nat) (k t : Nat) (ht : t < 8) :
    ((EPD.getbuffer 176 264 pix) k).testBit t =
      !(decide (8 * k + 7 - t < 46464) &&
        (pix ((8 * k + 7 - t) % 176) ((8 * k + 7 - t) / 176) != 0)) := by
  unfold EPD.getbuffer
  simp only [EPD_WIDTH, EPD_HEIGHT]
  rw [if_pos ⟨trivial, trivial⟩]
  rw [testBit_packPass _ _ _ _ _ _ _ ht]
  rw [testBit_255 t ht]
  rw [any_coords_primary pix k t ht]
  simp

/-- Bit-level description of the secondary `getbuffer` branch (image in
logical 264×176 orientation). -/
theorem getbuffer_secondary_testBit (pix : Nat → Nat → Nat) (k t : Nat) (ht : t < 8) :
    ((EPD.getbuffer 264 176 pix) k).testBit t =
      !(decide (8 * k + 7 - t < 46464) &&
        (pix (263 - (8 * k + 7 - t) / 176) ((8 * k + 7 - t) % 176) != 0)) := by
  unfold EPD.getbuffer
  simp only [EPD_WIDTH, EPD_HEIGHT]
  rw [if_neg (by simp), if_pos ⟨trivial, trivial⟩]
  rw [testBit_packPass _ _ _ _ _ _ _ ht]
  rw [testBit_255 t ht]
  rw [any_coords_secondary pix k t ht]
  simp

/-! ## Pack / unpack round trip (claim C2) -/

/-- C2: packing a physical-orientation (176×264) boolean ink mask with
`getbuffer` (8 pixels per byte, MSB first, bit 1 = ink) and then extracting
every bit reconstructs the original mask exactly; the same `getbuffer` is
used for both the black and the red plane. -/
theorem getbuffer_pack_unpack_roundtrip (m : Fin EPD_HEIGHT → Fin EPD_WIDTH → Bool) :
    unpackMask (EPD.getbuffer 176 264 (maskToPix m)) = m := by
  funext y x
  obtain ⟨yv, hy⟩ := y
  obtain ⟨xv, hx⟩ := x
  have hx' : xv < 176 := hx
  have hy' : yv < 264 := hy
  unfold unpackMask extractBit
  simp only [EPD_WIDTH]
  have ht : 7 - xv % 8 < 8 := by omega
  rw [getbuffer_primary_testBit _ _ _ ht]
  have ha : 8 * ((xv + yv * 176) / 8) + 7 - (7 - xv % 8) = xv + yv * 176 := by omega
  rw [ha]
  have h1 : (xv + yv * 176) % 176 = xv := by omega
  have h2 : (xv + yv * 176) / 176 = yv := by omega
  rw [h1, h2]
  have hlt : xv + yv * 176 < 46464 := by omega
  unfold maskToPix
  rw [dif_pos ⟨hx, hy⟩]
  simp only [hlt, decide_True, Bool.true_and]
  cases hm : m ⟨yv, hy⟩ ⟨xv, hx⟩ <;> simp [hm]

/-! ## The two packing paths agree (claim C3) -/

theorem getbuffer_paths_agree (m : Nat → Nat → Bool) :
    EPD.getbuffer 264 176 (boolPix m) = EPD.getbuffer 176 264 (boolPix (rot90ccw m)) := by
  funext i
  apply Nat.eq_of_testBit_eq
  intro t
  by_cases ht : t < 8
  · rw [getbuffer_secondary_testBit _ _ _ ht, getbuffer_primary_testBit _ _ _ ht]
    simp [boolPix, rot90ccw]
  · have hpow : (255 : Nat) < 2 ^ t := by
      calc (255 : Nat) < 2 ^ 8 := by norm_num
      _ ≤ 2 ^ t := Nat.pow_le_pow_right (by norm_num) (by omega)
    rw [Nat.testBit_lt_two_pow (lt_of_le_of_lt (getbuffer_le_255 _ _ _ i) hpow),
      Nat.testBit_lt_two_pow (lt_of_le_of_lt (getbuffer_le_255 _ _ _ i) hpow)]

/-- C3 (refutation of the claim as stated): there is NO logical 264×176 ink
mask on which the secondary (already-physical-arithmetic) path of `getbuffer`
differs from rotating 90° counterclockwise and packing through the primary
path — the two paths' bit addressing coincides everywhere. -/
theorem getbuffer_dual_path_mismatch_refuted :
    ¬ ∃ m : Nat → Nat → Bool,
      EPD.getbuffer 264 176 (boolPix m) ≠ EPD.getbuffer 176 264 (boolPix (rot90ccw m)) :=
  fun ⟨m, hm⟩ => hm (getbuffer_paths_agree m)

/-- C3 (amended): for EVERY logical 264×176 ink mask, packing directly through
the secondary path of `getbuffer` produces exactly the byte buffer obtained by
first rotating the mask 90° counterclockwise and packing through the primary
(176×264) path — the secondary path's bit addressing matches the primary
path's. -/
theorem getbuffer_secondary_eq_rotated_primary (m : Nat → Nat → Bool) :
    EPD.getbuffer 264 176 (boolPix m) = EPD.getbuffer 176 264 (boolPix (rot90ccw m)) :=
  getbuffer_paths_agree m

/-! ## Dither masks: canvas dimensions and plane disjointness (claim C1) -/

theorem maskGet_row_major (res : Nat → Nat → Nat) (v y x : Nat) :
    maskGet ((List.range canvasH).map fun yy =>
        (List.range canvasW).map fun xx => res yy xx == v) y x
      = (decide (y < canvasH) && decide (x < canvasW) && (res y x == v)) := by
  unfold maskGet
  by_cases hy : y < canvasH
  · have hrow : ((List.range canvasH).map fun yy =>
        (List.range canvasW).map fun xx => res yy xx == v).getD y []
        = (List.range canvasW).map fun xx => res y xx == v := by
      simp [List.getD, List.getElem?_map, List.getElem?_range, hy]
    rw [hrow]
    by_cases hx : x < canvasW
    · simp [List.getD, List.getElem?_map, List.getElem?_range, hx, hy]
    · have hnone : ((List.range canvasW).map fun xx => res y xx == v)[x]? = none := by
        rw [List.getElem?_eq_none]
        simpa using by omega
      simp [List.getD, hnone, hx]
  · have hnone : ((List.range canvasH).map fun yy =>
        (List.range canvasW).map fun xx => res yy xx == v)[y]? = none := by
      rw [List.getElem?_eq_none]
      simpa using by omega
    simp [List.getD, hnone, hy]

/-- C1: for every palette, preprocessing pipeline and successfully opened
source image, `dither_image` returns two boolean masks of exactly the canvas
dimensions (176 rows of 264 entries, i.e. 264×176), and no pixel carries ink
on both the black and the red plane. -/
theorem dither_masks_canvas_disjoint (pal : Nat → Lab)
    (preprocess : SrcImage → ℚ → ℚ → (Nat → Nat → Lab))
    (img : SrcImage) (sat con : ℚ) (y x : Nat) :
    ∃ bm rm,
      dither_image pal preprocess (Except.ok img) sat con = Except.ok (bm, rm) ∧
      bm.length = 176 ∧ (bm.all fun r => r.length == 264) = true ∧
      rm.length = 176 ∧ (rm.all fun r => r.length == 264) = true ∧
      ¬(maskGet bm y x = true ∧ maskGet rm y x = true) := by
  refine ⟨((List.range canvasH).map fun yy => (List.range canvasW).map fun xx =>
      (ditherCore pal (preprocess img sat con)).result yy xx == 0),
    ((List.range canvasH).map fun yy => (List.range canvasW).map fun xx =>
      (ditherCore pal (preprocess img sat con)).result yy xx == 1),
    rfl, by simp [canvasH], ?_, by simp [canvasH], ?_, ?_⟩
  · simp [List.all_eq_true, canvasW]
  · simp [List.all_eq_true, canvasW]
  · rw [maskGet_row_major, maskGet_row_major]
    rintro ⟨hb, hr⟩
    simp only [Bool.and_eq_true, decide_eq_true_eq, beq_iff_eq] at hb hr
    omega

theorem dither_masks_canvas_disjoint_witness :
    ∃ bm rm,
      dither_image (fun _ => ((0 : ℚ), (0 : ℚ), (0 : ℚ)))
          (fun _ _ _ => fun _ _ => ((0 : ℚ), (0 : ℚ), (0 : ℚ)))
          (Except.ok ⟨264, 176, fun _ _ => ((0 : ℚ), (0 : ℚ), (0 : ℚ))⟩) (5/2) (13/10)
        = Except.ok (bm, rm) ∧
      bm.length = 176 ∧ (bm.all fun r => r.length == 264) = true ∧
      rm.length = 176 ∧ (rm.all fun r => r.length == 264) = true ∧
      ¬(maskGet bm 0 0 = true ∧ maskGet rm 0 0 = true) :=
  dither_masks_canvas_disjoint (fun _ => ((0 : ℚ), (0 : ℚ), (0 : ℚ)))
    (fun _ _ _ => fun _ _ => ((0 : ℚ), (0 : ℚ), (0 : ℚ)))
    ⟨264, 176, fun _ _ => ((0 : ℚ), (0 : ℚ), (0 : ℚ))⟩ (5/2) (13/10) 0 0

/-! ## Dimension handling of `dither_image` (claim C4) -/

/-- C4 (refutation of the claim as stated): a source image whose dimensions
(10×10) differ from the 264×176 canvas is accepted without any error —
`dither_image` resizes (stretches) it to the canvas instead of failing with
InvalidInput. -/
theorem dither_image_accepts_mismatched_dims :
    (10 ≠ canvasW ∧ 10 ≠ canvasH) ∧
    (dither_image (fun _ => ((0 : ℚ), (0 : ℚ), (0 : ℚ)))
        (fun _ _ _ => fun _ _ => ((0 : ℚ), (0 : ℚ), (0 : ℚ)))
        (Except.ok ⟨10, 10, fun _ _ => ((0 : ℚ), (0 : ℚ), (0 : ℚ))⟩)
        (5/2) (13/10)).isOk = true :=
  ⟨⟨by decide, by decide⟩, rfl⟩

/-- C4 (amended): `dither_image` performs no dimension check — every
successfully opened source image is accepted (and resized/stretched to the
264×176 canvas by the preprocessing pipeline), whatever its dimensions; an
InvalidInput error arises only when the source itself cannot be
opened/interpreted, and is then passed through unchanged. -/
theorem dither_image_total_on_opened_images (pal : Nat → Lab)
    (preprocess : SrcImage → ℚ → ℚ → (Nat → Nat → Lab))
    (img : SrcImage) (sat con : ℚ) (e : DitherError) :
    (dither_image pal preprocess (Except.ok img) sat con).isOk = true ∧
    dither_image pal preprocess (Except.error e) sat con = Except.error e :=
  ⟨rfl, rfl⟩

/-! ## Serpentine scan and kernel shape (claim C5) -/

theorem foldl_flatMap {α β γ : Type} (l : List α) (f : α → List β)
    (g : γ → β → γ) (init : γ) :
    (l.flatMap f).foldl g init = l.foldl (fun acc a => (f a).foldl g acc) init := by
  induction l generalizing init with
  | nil => rfl
  | cons a restl ih => simp [List.flatMap_cons, List.foldl_append, ih]

theorem diffuse_eq_specDiffuse (pix : Nat → Nat → Lab) (x y : Nat) (d : Int)
    (err : Lab) : diffuse pix x y d err = specDiffuse pix x y d err := by
  unfold diffuse specDiffuse FS_KERNEL specTaps
  simp [one_mul, neg_one_mul, zero_mul]

theorem specStep_eq_ditherStep (pal : Nat → Lab) (st : DitherState) (x y : Nat) :
    specStep pal st (x, y) = ditherStep pal st x y (specDirection y) := by
  simp [specStep, ditherStep, diffuse_eq_specDiffuse]

theorem rowPass_eq_spec (pal : Nat → Lab) (st : DitherState) (y : Nat) :
    rowPass pal st y =
      ((if y % 2 = 0 then List.range canvasW else (List.range canvasW).reverse).map
        fun x => (x, y)).foldl (specStep pal) st := by
  unfold rowPass
  by_cases hy : y % 2 = 0
  · rw [if_pos hy, if_pos hy, List.foldl_map]
    have hfun : (fun s x => ditherStep pal s x y 1) =
        fun (acc : DitherState) x => specStep pal acc (x, y) := by
      funext s x
      rw [specStep_eq_ditherStep]
      simp [specDirection, hy]
    rw [hfun]
  · rw [if_neg hy, if_neg hy, List.foldl_map]
    have hfun : (fun s x => ditherStep pal s x y (-1)) =
        fun (acc : DitherState) x => specStep pal acc (x, y) := by
      funext s x
      rw [specStep_eq_ditherStep]
      simp [specDirection, hy]
    rw [hfun]

/-- C5: the source's pixel loop equals the specification-side description —
pixels are visited in serpentine order (even rows left→right, odd rows
right→left) and each residual error is diffused through the 4-tap kernel
with weights 7/16 in scan direction, 3/16 next-row against scan direction,
5/16 directly below, 1/16 next-row with scan direction, the horizontal taps
mirroring with the scan direction and out-of-bounds taps discarded. -/
theorem ditherCore_eq_spec_serpentine (pal : Nat → Lab) (pix0 : Nat → Nat → Lab) :
    ditherCore pal pix0 = specDither pal pix0 := by
  unfold ditherCore specDither specScanOrder
  rw [foldl_flatMap]
  have hfun : rowPass pal = fun (acc : DitherState) y =>
      ((if y % 2 = 0 then List.range canvasW else (List.range canvasW).reverse).map
        fun x => (x, y)).foldl (specStep pal) acc := by
    funext st y
    exact rowPass_eq_spec pal st y
  rw [hfun]

/-! ## Progress-bar escalation (claim C8) -/

theorem rectFill_preserves_ink (m : ℤ → ℤ → Bool) (a b c d px py : ℤ)
    (h : m px py = true) : rectFill m a b c d px py = true := by
  unfold rectFill
  split
  · rfl
  · exact h

/-- C8: `progress_bar` renders the fill in the escalation color whenever the
value reaches the critical threshold — the result is then identical to a call
requesting `"red"`, whatever color the caller requested; below the threshold
the fill is routed to the plane of the requested color; and the outline is
always drawn on the primary (black) plane, whatever the arguments. -/
theorem progress_bar_escalation (c : Composer) (x y width height : ℤ)
    (percent : ℚ) (color : String) (th : ℚ) :
    (th ≤ percent →
      progress_bar c x y width height percent color th =
        progress_bar c x y width height percent "red" th) ∧
    (percent < th →
      progress_bar c x y width height percent color th =
        (let c1 : Composer :=
          { c with black := rectOutline c.black x y (x + width) (y + height) }
         let fill_w : ℤ := max 0 (pyInt (((width : ℚ) - 2) * min percent 100 / 100))
         if 0 < fill_w then
           drawPlane c1 color
             (fun m => rectFill m (x + 1) (y + 1) (x + 1 + fill_w) (y + height - 1))
         else c1)) ∧
    (∀ px py : ℤ,
      rectOutline c.black x y (x + width) (y + height) px py = true →
      (progress_bar c x y width height percent color th).black px py = true) := by
  refine ⟨?_, ?_, ?_⟩
  · intro h
    simp [progress_bar, if_pos h]
  · intro h
    simp [progress_bar, if_neg (not_le.mpr h)]
  · intro px py hpx
    unfold progress_bar
    by_cases hf : 0 < max 0 (pyInt (((width : ℚ) - 2) * min percent 100 / 100))
    · rw [if_pos hf]
      unfold drawPlane
      by_cases hc : (if th ≤ percent then "red" else color) = "red"
      · rw [if_pos hc]
        exact hpx
      · rw [if_neg hc]
        exact rectFill_preserves_ink _ _ _ _ _ _ _ hpx
    · rw [if_neg hf]
      exact hpx

theorem progress_bar_escalation_witness :
    ((85 : ℚ) ≤ 90 ∧
      progress_bar ⟨fun _ _ => false, fun _ _ => false⟩ 0 0 20 5 90 "black" 85 =
        progress_bar ⟨fun _ _ => false, fun _ _ => false⟩ 0 0 20 5 90 "red" 85) ∧
    (rectOutline (fun _ _ => false) 0 0 (0 + 20) (0 + 5) 0 0 = true ∧
      (progress_bar ⟨fun _ _ => false, fun _ _ => false⟩ 0 0 20 5 90 "black" 85).black 0 0
        = true) := by
  refine ⟨⟨by norm_num, ?_⟩, ?_, ?_⟩
  · exact (progress_bar_escalation ⟨fun _ _ => false, fun _ _ => false⟩
      0 0 20 5 90 "black" 85).1 (by norm_num)
  · simp [rectOutline]
  · exact (progress_bar_escalation ⟨fun _ _ => false, fun _ _ => false⟩
      0 0 20 5 90 "black" 85).2.2 0 0 (by simp [rectOutline])
